import Mathlib

/-!
# Verification of `tiktok_export.py` string and CSV logic

Shallow embedding of the pure string/CSV parts of `tiktok_export.py`:
Python strings are modelled as `List Char`, the per-character operations
(`sanitize`, `extract_hashtags`, quote escaping, comma splitting) are
translated function-by-function, and the effectful parts
(`post_process_videos`, `update_csv_row`) are modelled by explicit
outcome values over lists of lines.
-/

set_option autoImplicit false

namespace TiktokExport

/-! ## Definitions: the shallow embedding of `tiktok_export.py` -/

/-- Python strings, modelled as lists of characters. -/
abbrev Str := List Char

/-- The characters removed by `sanitize` (the raw string `\/:*?"<>|`). -/
def invalidChars : List Char := ['\\', '/', ':', '*', '?', '"', '<', '>', '|']

/-- The whitespace characters stripped by Python `str.strip()`. -/
def isSpaceChar (c : Char) : Bool :=
  c = ' ' || c = '\t' || c = '\n' || c = '\r' || c = '\x0b' || c = '\x0c'

/-- Python `str.lstrip()`: drop leading whitespace. -/
def lstrip (l : Str) : Str := l.dropWhile isSpaceChar

/-- Python `str.rstrip()`: drop trailing whitespace. -/
def rstrip (l : Str) : Str := (l.reverse.dropWhile isSpaceChar).reverse

/-- Python `str.strip()`: drop leading and trailing whitespace. -/
def pstrip (l : Str) : Str := rstrip (lstrip l)

/-- `sanitize` from `tiktok_export.py`:
`"".join(c for c in text if c not in r'\/:*?"<>|').strip()`. -/
def sanitize (text : Str) : Str :=
  pstrip (text.filter (fun c => !invalidChars.contains c))

/-- A string is `HeadOk` when it is empty or starts with a non-whitespace
character; Python `lstrip` is the identity on such strings. -/
def HeadOk (l : Str) : Prop :=
  l = [] ∨ ∃ c t, l = c :: t ∧ isSpaceChar c = false

/-- A regex word character (`\w`): letter, digit or underscore. -/
def isWordChar (c : Char) : Bool := c.isAlphanum || c = '_'

/-- `re.findall(r"#\w+", s)`: scan left to right; at each `#` followed by at
least one word character take the maximal word-character run (greedy `+`),
then continue after it; otherwise move one character forward. -/
def findall : Str → List Str
  | [] => []
  | c :: rest =>
    if c = '#' then
      let run := rest.takeWhile isWordChar
      if run.isEmpty then findall rest
      else ('#' :: run) :: findall (rest.dropWhile isWordChar)
    else findall rest
termination_by l => l.length
decreasing_by
  · simp_wf
  · simp_wf
    exact Nat.lt_succ_of_le (List.Sublist.length_le (List.dropWhile_sublist _))
  · simp_wf

/-- `extract_hashtags` from `tiktok_export.py`:
`" ".join(re.findall(r"#\w+", description)) if description else "(No hashtags)"`. -/
def extract_hashtags (description : Str) : Str :=
  if description.isEmpty then "(No hashtags)".toList
  else List.intercalate [' '] (findall description)

/-- The string `s` decomposes as an alternation of filler and the matches
`ms`, in order and non-overlapping, each match followed by a character that
cannot extend it (or the end of the string). -/
inductive HashtagSplit : Str → List Str → Prop
  | nil (s : Str) : HashtagSplit s []
  | cons (pre m rest : Str) (ms : List Str)
      (hmax : ∀ c, rest.head? = some c → isWordChar c = false)
      (h : HashtagSplit rest ms) : HashtagSplit (pre ++ m ++ rest) (m :: ms)

/-- One video's metadata as consumed from its info JSON, after the `.get`
defaults applied by the source (`title`/`upload_date`/`description` default
to `""`, `webpage_url` to `"(No URL)"`, the counts to `0`). -/
structure VideoData where
  title : Str
  upload_date : Str
  description : Str
  webpage_url : Str
  view_count : Nat
  like_count : Nat
  comment_count : Nat

/-- Python `s.replace('"', '""')`: double every double quote. -/
def escQuotes : Str → Str
  | [] => []
  | c :: rest => if c = '"' then '"' :: '"' :: escQuotes rest else c :: escQuotes rest

/-- Python `str(n)` for the non-negative counts. -/
def natStr (n : Nat) : Str := Nat.toDigits 10 n

/-- `datetime.strptime(d, "%Y%m%d").strftime("%Y-%m-%d")` on a string
accepted by `strptime`: reinsert the two hyphens. -/
def reformatDate (d : Str) : Str :=
  d.take 4 ++ '-' :: ((d.drop 4).take 2 ++ '-' :: (d.drop 6).take 2)

/-- Shape of the dates accepted by `strptime("%Y%m%d")` in this program:
eight digits with an in-range month and day. -/
def ValidDate8 (d : Str) : Prop :=
  d.length = 8 ∧ (∀ c ∈ d, c.isDigit) ∧
    1 ≤ ((d.drop 4).take 2).foldl (fun n c => 10 * n + (c.toNat - 48)) 0 ∧
    ((d.drop 4).take 2).foldl (fun n c => 10 * n + (c.toNat - 48)) 0 ≤ 12 ∧
    1 ≤ ((d.drop 6).take 2).foldl (fun n c => 10 * n + (c.toNat - 48)) 0 ∧
    ((d.drop 6).take 2).foldl (fun n c => 10 * n + (c.toNat - 48)) 0 ≤ 31

instance (d : Str) : Decidable (ValidDate8 d) := by
  unfold ValidDate8
  exact inferInstance

/-- `generate_csv`: the upload date is reformatted only when non-empty
(`if upload_date:`). -/
def fmtUploadDate (d : Str) : Str := if d.isEmpty then d else reformatDate d

/-- One data row of `generate_csv`:
`f'"{title}",{upload_date},{download_date},"{description}","{video_url}",{views},{likes},{comments}'`
with `title` and `description` quote-escaped. -/
def csvRow (download_date : Str) (d : VideoData) : Str :=
  ['"'] ++ escQuotes d.title ++ ['"', ','] ++ fmtUploadDate d.upload_date ++ [',']
    ++ download_date ++ [',', '"'] ++ escQuotes d.description ++ ['"', ',', '"']
    ++ d.webpage_url ++ ['"', ','] ++ natStr d.view_count ++ [',']
    ++ natStr d.like_count ++ [','] ++ natStr d.comment_count

/-- The fixed header row of `generate_csv`. -/
def csvHeader : Str :=
  "Name,Release date,Download date,Description,Video URL,Views,Likes,Comments".toList

/-- `generate_csv`: the text written to `tiktok_export.csv` is the header
followed by the rows, joined with `"\n"`. -/
def generate_csv (download_date : Str) (items : List VideoData) : Str :=
  List.intercalate ['\n'] (csvHeader :: items.map (csvRow download_date))

/-- The first line of a text file: characters up to the first newline. -/
def firstLine (l : Str) : Str := l.takeWhile (fun c => !(c = '\n'))

/-- Python `line.split(",")`. -/
def splitOnComma : Str → List Str
  | [] => [[]]
  | c :: rest =>
    if c = ',' then [] :: splitOnComma rest
    else
      match splitOnComma rest with
      | [] => [[c]]
      | p :: ps => (c :: p) :: ps

/-- The character class stripped by `strip('"')`. -/
def isQuote (c : Char) : Bool := c = '"'

/-- Python `s.strip('"')`: remove leading and trailing double quotes. -/
def stripQuotes (l : Str) : Str :=
  ((l.dropWhile isQuote).reverse.dropWhile isQuote).reverse

/-- The key under which `load_existing_csv` stores a data line:
`parts[0].strip('"')` for `parts = line.split(",")`. -/
def loadKey (line : Str) : Str := stripQuotes ((splitOnComma line).headD [])

/-- The keys of the dict returned by `load_existing_csv`: one per line after
the header (`split(",")` always yields a non-empty `parts`, so the
`if parts:` guard never skips a line). -/
def load_existing_keys (lines : List Str) : List Str := (lines.drop 1).map loadKey

/-- The line-match test of `update_csv_row`: `line.startswith(f'"{title}"')`. -/
def matchesTitle (line title : Str) : Bool :=
  List.isPrefixOf ('"' :: title ++ ['"']) line

/-- `parts[-3] = views; parts[-2] = likes; parts[-1] = comments` on
`parts = line.split(",")`: Python raises `IndexError` (modelled by `none`)
when there are fewer than three parts. -/
def setLast3 (parts : List Str) (v l c : Str) : Option (List Str) :=
  if parts.length < 3 then none
  else some (parts.take (parts.length - 3) ++ [v, l, c])

/-- A line with its final three comma-separated fields replaced by the
stats of `dat`. -/
def replaceStats (dat : VideoData) (line : Str) : Str :=
  List.intercalate [','] ((splitOnComma line).take ((splitOnComma line).length - 3)
    ++ [natStr dat.view_count, natStr dat.like_count, natStr dat.comment_count])

/-- The loop of `update_csv_row` over the data lines: rebuilds each line,
rewriting the last three comma-separated parts of the lines that start with
the quoted title; `none` models the `IndexError` on a matching line with
fewer than three parts; the flag records whether any line matched. -/
def updateLines (title : Str) (dat : VideoData) : List Str → Option (List Str × Bool)
  | [] => some ([], false)
  | line :: rest =>
    if matchesTitle line title then
      match setLast3 (splitOnComma line) (natStr dat.view_count) (natStr dat.like_count)
          (natStr dat.comment_count) with
      | none => none
      | some parts =>
        match updateLines title dat rest with
        | none => none
        | some (rs, _) => some (List.intercalate [','] parts :: rs, true)
    else
      match updateLines title dat rest with
      | none => none
      | some (rs, u) => some (line :: rs, u)

/-- `update_csv_row`, on the file's list of lines (`none` = the CSV file
does not exist). Returns the file content after the call and whether an
exception escaped (`IndexError` from the stats assignment, or `lines[0]` of
an empty file); the content is unchanged in that case because `write_text`
is only reached after the loop, and is also unchanged when no line matched
(`updated` stays false and nothing is written). -/
def update_csv_row (file : Option (List Str)) (title : Str) (dat : VideoData) :
    Option (List Str) × Bool :=
  match file with
  | none => (none, false)
  | some [] => (some [], true)
  | some (hdr :: rest) =>
    match updateLines title dat rest with
    | none => (some (hdr :: rest), true)
    | some (rs, u) => (if u then some (hdr :: rs) else some (hdr :: rest), false)

/-- The per-line relation guaranteed by `update_csv_row`: non-matching lines
are kept verbatim, matching lines only have their last three
comma-separated fields replaced. -/
def LineRel (title : Str) (dat : VideoData) (old new : Str) : Prop :=
  (matchesTitle old title = false ∧ new = old) ∨
    (matchesTitle old title = true ∧ new = replaceStats dat old ∧
      3 ≤ (splitOnComma old).length)

/-- `full_title = data.get("title", "").strip()`. -/
def full_title (d : VideoData) : Str := pstrip d.title

/-- The per-video folder name:
`f"{upload_date}-{username} - {sanitize(sanitized_title[:50])}"`, where
`sanitized_title = sanitize(full_title)` and `upload_date` has been
reformatted to `YYYY-MM-DD`. -/
def folderName (username : Str) (d : VideoData) : Str :=
  reformatDate d.upload_date ++ '-' :: username ++ ' ' :: '-' :: ' ' ::
    sanitize ((sanitize (full_title d)).take 50)

/-- The TXT sidecar file name:
`sanitize(f"{upload_date}-{username} - {sanitized_title[:FILENAME_LENGTH]}.txt")`
with `FILENAME_LENGTH = 10`. -/
def txtName (username : Str) (d : VideoData) : Str :=
  sanitize (reformatDate d.upload_date ++ '-' :: username ++ ' ' :: '-' :: ' ' ::
    ((sanitize (full_title d)).take 10 ++ ".txt".toList))

/-- What one iteration of the `post_process_videos` loop does with one item. -/
inductive StepResult where
  | skippedNoDate : StepResult
  | updatedExisting (folder txt : Str) : StepResult
  | createdNew (folder txt : Str) (txtWritten : Bool) : StepResult
deriving DecidableEq

/-- One iteration of the `post_process_videos` loop: items without an upload
date are skipped before any filesystem effect (`continue`); the folder is
then created; items whose full title is a key of the loaded CSV dict only
get their TXT/CSV stats updated; new items get their files moved and a TXT
sidecar written, `txtOk` saying whether that write succeeds (on failure the
exception is caught and a warning printed, `txtWritten = false`). -/
def processItem (username : Str) (existingKeys : List Str) (txtOk : Bool)
    (d : VideoData) : StepResult :=
  if d.upload_date.isEmpty then .skippedNoDate
  else if existingKeys.contains (full_title d) then
    .updatedExisting (folderName username d) (txtName username d)
  else .createdNew (folderName username d) (txtName username d) txtOk

/-- The loop of `post_process_videos` over the discovered info JSONs, each
item paired with whether its TXT write would succeed. -/
def post_process_videos (username : Str) (existingKeys : List Str)
    (items : List (VideoData × Bool)) : List StepResult :=
  items.map fun x => processItem username existingKeys x.2 x.1

/-- Folders `mkdir`-ed by one iteration. -/
def foldersMade : StepResult → List Str
  | .skippedNoDate => []
  | .updatedExisting f _ => [f]
  | .createdNew f _ _ => [f]

/-- TXT paths written (or attempted) by one iteration. -/
def txtWritesAttempted : StepResult → List Str
  | .skippedNoDate => []
  | .updatedExisting _ t => [t]
  | .createdNew _ t _ => [t]

/-- Whether one iteration moves media/JSON files. -/
def movesFiles : StepResult → Bool
  | .createdNew _ _ _ => true
  | _ => false

/-- Whether one iteration calls `update_csv_row`. -/
def touchesCsv : StepResult → Bool
  | .updatedExisting _ _ => true
  | _ => false

/-- `is_yt_dlp_installed`: runs `yt-dlp --version` (outcome modelled by an
`Except`) and catches every exception, returning `False` instead. -/
def is_yt_dlp_installed (r : Except Str Unit) : Bool :=
  match r with
  | .ok _ => true
  | .error _ => false

/-! ## Theorems -/

theorem mem_of_mem_lstrip {c : Char} {l : Str} (h : c ∈ lstrip l) : c ∈ l :=
  List.dropWhile_sublist (l := l) (p := isSpaceChar) |>.mem h

theorem mem_of_mem_rstrip {c : Char} {l : Str} (h : c ∈ rstrip l) : c ∈ l := by
  unfold rstrip at h
  rw [List.mem_reverse] at h
  exact List.mem_reverse.mp (List.dropWhile_sublist (l := l.reverse) (p := isSpaceChar) |>.mem h)

theorem mem_of_mem_pstrip {c : Char} {l : Str} (h : c ∈ pstrip l) : c ∈ l :=
  mem_of_mem_lstrip (mem_of_mem_rstrip h)

theorem mem_of_mem_sanitize {c : Char} {t : Str} (h : c ∈ sanitize t) : c ∈ t := by
  have := mem_of_mem_pstrip h
  exact (List.mem_filter.mp this).1

/-- Every character surviving `sanitize` passed the filter. -/
theorem not_invalid_of_mem_sanitize {c : Char} {t : Str} (h : c ∈ sanitize t) :
    !invalidChars.contains c := by
  have := mem_of_mem_pstrip h
  exact (List.mem_filter.mp this).2

/-- C3 — For every input string, the output of `sanitize` contains none of the
disallowed filesystem characters `\ / : * ? " < > |`. -/
theorem sanitize_removes_invalid_chars (t : Str) (c : Char) (h : c ∈ sanitize t) :
    c ∉ invalidChars := by
  have hb := not_invalid_of_mem_sanitize h
  intro hc
  rw [Bool.not_eq_true'] at hb
  simp at hb
  exact hb hc

/-- Witness for C3 at a concrete input. -/
theorem sanitize_removes_invalid_chars_witness :
    'a' ∈ sanitize ['a', '?'] ∧ 'a' ∉ invalidChars :=
  ⟨by decide, sanitize_removes_invalid_chars ['a', '?'] 'a' (by decide)⟩

theorem dropWhile_idem (p : Char → Bool) (l : Str) :
    (l.dropWhile p).dropWhile p = l.dropWhile p := by
  induction l with
  | nil => rfl
  | cons c t ih =>
    by_cases h : p c
    · simp [List.dropWhile_cons, h, ih]
    · simp [List.dropWhile_cons, h]

theorem headOk_lstrip (l : Str) : HeadOk (lstrip l) := by
  induction l with
  | nil => exact Or.inl rfl
  | cons c t ih =>
    by_cases h : isSpaceChar c
    · simpa [lstrip, List.dropWhile_cons, h] using ih
    · exact Or.inr ⟨c, t, by simp [lstrip, List.dropWhile_cons, h], by simpa using h⟩

theorem headOk_of_prefix {l l' : Str} (h : HeadOk l) (hp : l' <+: l) : HeadOk l' := by
  match l', hp with
  | [], _ => exact Or.inl rfl
  | c :: t, ⟨s, hs⟩ =>
    rcases h with h | ⟨c', t', he, hc'⟩
    · rw [h] at hs
      exact absurd hs (by simp)
    · rw [← hs] at he
      simp only [List.cons_append] at he
      injection he with h1 _
      exact Or.inr ⟨c, t, rfl, h1 ▸ hc'⟩

theorem lstrip_eq_self_of_headOk {l : Str} (h : HeadOk l) : lstrip l = l := by
  rcases h with h | ⟨c, t, he, hc⟩
  · rw [h]; rfl
  · rw [he]; simp [lstrip, List.dropWhile_cons, hc]

theorem rstrip_prefix_self (l : Str) : rstrip l <+: l := by
  have h : l.reverse.dropWhile isSpaceChar <:+ l.reverse := List.dropWhile_suffix _
  have := List.reverse_prefix.mpr h
  simpa [rstrip] using this

theorem rstrip_idem (l : Str) : rstrip (rstrip l) = rstrip l := by
  simp [rstrip, dropWhile_idem]

theorem headOk_pstrip (l : Str) : HeadOk (pstrip l) :=
  headOk_of_prefix (headOk_lstrip l) (rstrip_prefix_self (lstrip l))

theorem pstrip_idem (l : Str) : pstrip (pstrip l) = pstrip l := by
  show rstrip (lstrip (pstrip l)) = pstrip l
  rw [lstrip_eq_self_of_headOk (headOk_pstrip l)]
  exact rstrip_idem (lstrip l)

theorem filter_sanitize_eq_self (t : Str) :
    (sanitize t).filter (fun c => !invalidChars.contains c) = sanitize t :=
  List.filter_eq_self.mpr fun _ hc => not_invalid_of_mem_sanitize hc

theorem sanitize_idem (t : Str) : sanitize (sanitize t) = sanitize t := by
  show pstrip ((sanitize t).filter _) = sanitize t
  rw [filter_sanitize_eq_self t]
  exact pstrip_idem _

/-- Sanitizing a truncation of an already-sanitized string only strips
trailing whitespace exposed at the cut (the filter and the left strip are
no-ops there). -/
theorem sanitize_take_sanitize (t : Str) (n : Nat) :
    sanitize ((sanitize t).take n) = rstrip ((sanitize t).take n) := by
  have hfilter : ((sanitize t).take n).filter (fun c => !invalidChars.contains c)
      = (sanitize t).take n := by
    refine List.filter_eq_self.mpr fun c hc => ?_
    have hpre := List.take_prefix n (sanitize t)
    exact not_invalid_of_mem_sanitize (hpre.mem hc)
  have hhead : HeadOk ((sanitize t).take n) :=
    headOk_of_prefix (headOk_pstrip _) (by exact List.take_prefix n _)
  show pstrip (((sanitize t).take n).filter _) = _
  rw [hfilter]
  show rstrip (lstrip _) = _
  rw [lstrip_eq_self_of_headOk hhead]

/-- C8 (counterexample) — The claim's consequence fails: in the folder-name
construction `sanitize(sanitized_title[:50])`, the outer `sanitize` CAN
change an already-sanitized-then-truncated title, because truncation can
expose trailing whitespace that the outer strip removes. Concretely, for a
title of 49 `a`s, a space and a `b`, the truncation to 50 characters ends in
a space that the second `sanitize` strips. -/
theorem sanitize_double_application_changes_truncation :
    sanitize ((sanitize (List.replicate 49 'a' ++ [' ', 'b'])).take 50)
      ≠ (sanitize (List.replicate 49 'a' ++ [' ', 'b'])).take 50 := by decide

/-- C8 (amended) — `sanitize` itself is idempotent: `sanitize (sanitize s) =
sanitize s` for every string `s`. However, the double application in the
folder-name construction acts on a truncation of a sanitized title, where the
outer `sanitize` is exactly a right-strip of whitespace exposed at the cut
(so it can change the truncated string, but only that way). -/
theorem sanitize_idempotent (s : Str) (n : Nat) :
    sanitize (sanitize s) = sanitize s ∧
      sanitize ((sanitize s).take n) = rstrip ((sanitize s).take n) :=
  ⟨sanitize_idem s, sanitize_take_sanitize s n⟩

theorem findall_nil : findall [] = [] := by rw [findall]

theorem findall_hash_empty {rest : Str} (h : (rest.takeWhile isWordChar).isEmpty = true) :
    findall ('#' :: rest) = findall rest := by
  rw [findall]
  simp [h]

theorem findall_hash_run {rest : Str} (h : ¬(rest.takeWhile isWordChar).isEmpty = true) :
    findall ('#' :: rest)
      = ('#' :: rest.takeWhile isWordChar) :: findall (rest.dropWhile isWordChar) := by
  rw [findall]
  simp [h]

theorem findall_cons {c : Char} {rest : Str} (h : ¬c = '#') :
    findall (c :: rest) = findall rest := by
  rw [findall]
  simp [h]

theorem dropWhile_head_not {p : Char → Bool} {l : Str} {c : Char} {t : Str}
    (h : l.dropWhile p = c :: t) : p c = false := by
  induction l with
  | nil => simp at h
  | cons a l ih =>
    rw [List.dropWhile_cons] at h
    by_cases ha : p a
    · rw [if_pos ha] at h
      exact ih h
    · rw [if_neg ha] at h
      injection h with h1 _
      rw [← h1]
      simpa using ha

theorem hashtagSplit_cons {c : Char} {s : Str} {ms : List Str}
    (h : HashtagSplit s ms) : HashtagSplit (c :: s) ms := by
  cases h with
  | nil s => exact HashtagSplit.nil (c :: s)
  | cons pre m rest ms hmax h =>
    exact HashtagSplit.cons (c :: pre) m rest ms hmax h

/-- Every match returned by `findall` is `#` followed by a non-empty run of
word characters. -/
theorem findall_shape (d : Str) :
    ∀ m ∈ findall d, ∃ w, m = '#' :: w ∧ w ≠ [] ∧ ∀ c ∈ w, isWordChar c = true := by
  induction d using findall.induct with
  | case1 =>
    intro m hm
    rw [findall_nil] at hm
    simp at hm
  | case2 rest run h ih =>
    intro m hm
    rw [findall_hash_empty h] at hm
    exact ih m hm
  | case3 rest run h ih =>
    intro m hm
    rw [findall_hash_run h] at hm
    rcases List.mem_cons.mp hm with hm | hm
    · refine ⟨rest.takeWhile isWordChar, hm, ?_, ?_⟩
      · intro hnil
        refine h ?_
        rw [List.isEmpty_iff]
        exact hnil
      · intro ch hch
        exact List.mem_takeWhile_imp hch
    · exact ih m hm
  | case4 c rest h ih =>
    intro m hm
    rw [findall_cons h] at hm
    exact ih m hm

/-- The matches of `findall` occur in the scanned string, in order,
non-overlapping, and each is maximal to the right. -/
theorem findall_split (d : Str) : HashtagSplit d (findall d) := by
  induction d using findall.induct with
  | case1 =>
    rw [findall_nil]
    exact HashtagSplit.nil []
  | case2 rest run h ih =>
    rw [findall_hash_empty h]
    exact hashtagSplit_cons ih
  | case3 rest run h ih =>
    rw [findall_hash_run h]
    have hdecomp : '#' :: rest
        = [] ++ ('#' :: rest.takeWhile isWordChar) ++ rest.dropWhile isWordChar := by
      simp [List.takeWhile_append_dropWhile]
    rw [hdecomp]
    refine HashtagSplit.cons [] _ _ _ ?_ ih
    intro ch hch
    cases hd : rest.dropWhile isWordChar with
    | nil =>
      rw [hd] at hch
      simp at hch
    | cons a t =>
      rw [hd] at hch
      simp at hch
      rw [hch] at hd
      exact dropWhile_head_not hd
  | case4 c rest h ih =>
    rw [findall_cons h]
    exact hashtagSplit_cons ih

/-- C4 — `extract_hashtags` returns `"(No hashtags)"` on an empty (or
missing) description, and otherwise the space-joined matches of `#\w+` in
the description: each match is `#` followed by a non-empty word-character
run, and the matches occur in the description in order, non-overlapping and
maximal. -/
theorem extract_hashtags_spec (d : Str) :
    (d = [] → extract_hashtags d = "(No hashtags)".toList) ∧
    (d ≠ [] →
      extract_hashtags d = List.intercalate [' '] (findall d) ∧
      (∀ m ∈ findall d, ∃ w, m = '#' :: w ∧ w ≠ [] ∧ ∀ c ∈ w, isWordChar c = true) ∧
      HashtagSplit d (findall d)) := by
  constructor
  · intro h
    subst h
    rfl
  · intro h
    refine ⟨?_, findall_shape d, findall_split d⟩
    rw [extract_hashtags, if_neg (by simpa [List.isEmpty_iff] using h)]

/-- Witness for C4 at the concrete description `"go #a_1, #b!"`. -/
theorem extract_hashtags_spec_witness :
    extract_hashtags "go #a_1, #b!".toList
        = List.intercalate [' '] (findall "go #a_1, #b!".toList) ∧
      (∀ m ∈ findall "go #a_1, #b!".toList,
        ∃ w, m = '#' :: w ∧ w ≠ [] ∧ ∀ c ∈ w, isWordChar c = true) ∧
      HashtagSplit "go #a_1, #b!".toList (findall "go #a_1, #b!".toList) :=
  (extract_hashtags_spec "go #a_1, #b!".toList).2 (by decide)

theorem intercalate_cons_cons {α : Type} (sep x y : List α) (zs : List (List α)) :
    List.intercalate sep (x :: y :: zs) = x ++ sep ++ List.intercalate sep (y :: zs) := by
  simp [List.intercalate, List.intersperse]

theorem takeWhile_eq_self_of_forall {p : Char → Bool} {l : Str} (h : ∀ c ∈ l, p c = true) :
    l.takeWhile p = l := by
  induction l with
  | nil => rfl
  | cons c t ih =>
    rw [List.takeWhile_cons, if_pos (h c (List.mem_cons_self c t))]
    rw [ih fun a ha => h a (List.mem_cons_of_mem c ha)]

theorem takeWhile_append_cons {p : Char → Bool} {l : Str} {x : Char} {r : Str}
    (h : ∀ c ∈ l, p c = true) (hx : p x = false) :
    (l ++ x :: r).takeWhile p = l := by
  induction l with
  | nil => simp [List.takeWhile_cons, hx]
  | cons c t ih =>
    rw [List.cons_append, List.takeWhile_cons, if_pos (h c (List.mem_cons_self c t))]
    rw [ih fun a ha => h a (List.mem_cons_of_mem c ha)]

theorem csvHeader_no_newline : ∀ c ∈ csvHeader, (!(c = '\n')) = true := by decide

/-- C5 — Every CSV file written by `generate_csv` has as its first line
exactly the fixed header `Name,Release date,Download date,Description,Video
URL,Views,Likes,Comments`, regardless of the rows. -/
theorem generate_csv_first_line_is_header (download_date : Str) (items : List VideoData) :
    firstLine (generate_csv download_date items) = csvHeader := by
  cases items with
  | nil =>
    show firstLine (List.intercalate ['\n'] [csvHeader]) = csvHeader
    have h1 : List.intercalate ['\n'] [csvHeader] = csvHeader := by
      simp [List.intercalate, List.intersperse]
    rw [h1]
    exact takeWhile_eq_self_of_forall csvHeader_no_newline
  | cons a as =>
    show firstLine (List.intercalate ['\n'] (csvHeader :: csvRow download_date a
      :: as.map (csvRow download_date))) = csvHeader
    rw [intercalate_cons_cons]
    rw [List.append_assoc]
    exact takeWhile_append_cons csvHeader_no_newline rfl

theorem splitOnComma_ne_nil (l : Str) : splitOnComma l ≠ [] := by
  cases l with
  | nil => simp [splitOnComma]
  | cons c rest =>
    rw [splitOnComma]
    by_cases h : c = ','
    · simp [h]
    · rw [if_neg h]
      cases splitOnComma rest <;> simp

/-- Splitting a comma-free chunk followed by a comma isolates the chunk. -/
theorem splitOnComma_append {l : Str} (h : ∀ c ∈ l, c ≠ ',') (r : Str) :
    splitOnComma (l ++ ',' :: r) = l :: splitOnComma r := by
  induction l with
  | nil => simp [splitOnComma]
  | cons c t ih =>
    rw [List.cons_append, splitOnComma,
      if_neg (h c (List.mem_cons_self c t)),
      ih fun a ha => h a (List.mem_cons_of_mem c ha)]

theorem dropWhile_eq_self_of_forall {p : Char → Bool} {l : Str} (h : ∀ c ∈ l, p c = false) :
    l.dropWhile p = l := by
  cases l with
  | nil => rfl
  | cons c t => simp [List.dropWhile_cons, h c (List.mem_cons_self c t)]

/-- Stripping quotes from a quote-wrapped quote-free string recovers it. -/
theorem stripQuotes_wrap {t : Str} (h : '"' ∉ t) : stripQuotes ('"' :: t ++ ['"']) = t := by
  cases t with
  | nil => rfl
  | cons c t' =>
    have hc : ¬ c = '"' := by
      intro he
      rw [← he] at h
      exact h (List.mem_cons_self c t')
    have hform : ∀ a ∈ t'.reverse ++ [c], isQuote a = false := by
      intro a ha
      have hne : ¬ a = '"' := by
        intro he
        rw [he] at ha
        rcases List.mem_append.mp ha with hb | hb
        · exact h (List.mem_cons_of_mem c (List.mem_reverse.mp hb))
        · simp only [List.mem_singleton] at hb
          exact hc hb.symm
      simp [isQuote, hne]
    have h1 : (('"' :: (c :: t')) ++ ['"']).dropWhile isQuote = c :: (t' ++ ['"']) := by
      rw [List.cons_append, List.dropWhile_cons, if_pos (by simp [isQuote]),
        List.cons_append, List.dropWhile_cons, if_neg (by simp [isQuote, hc])]
    have h2 : (c :: (t' ++ ['"'])).reverse = '"' :: (t'.reverse ++ [c]) := by
      simp
    have h3 : ('"' :: (t'.reverse ++ [c])).dropWhile isQuote = t'.reverse ++ [c] := by
      rw [List.dropWhile_cons, if_pos (by simp [isQuote])]
      exact dropWhile_eq_self_of_forall hform
    show (((('"' :: (c :: t')) ++ ['"']).dropWhile isQuote).reverse.dropWhile isQuote).reverse
      = c :: t'
    rw [h1, h2, h3]
    simp

/-- `escQuotes` is the identity on quote-free strings. -/
theorem escQuotes_eq_self {t : Str} (h : '"' ∉ t) : escQuotes t = t := by
  induction t with
  | nil => rfl
  | cons c t' ih =>
    have hc : ¬ c = '"' := by
      intro he
      rw [← he] at h
      exact h (List.mem_cons_self c t')
    rw [escQuotes, if_neg hc, ih fun ha => h (List.mem_cons_of_mem c ha)]

/-- Key helper: the key `load_existing_csv` computes from a `generate_csv`
row is the row's title, whenever the title contains no comma and no double
quote. -/
theorem loadKey_csvRow {download_date : Str} {d : VideoData}
    (hc : ',' ∉ d.title) (hq : '"' ∉ d.title) :
    loadKey (csvRow download_date d) = d.title := by
  have hrow : csvRow download_date d
      = ('"' :: d.title ++ ['"']) ++ ',' :: (fmtUploadDate d.upload_date ++ [',']
        ++ download_date ++ [',', '"'] ++ escQuotes d.description ++ ['"', ',', '"']
        ++ d.webpage_url ++ ['"', ','] ++ natStr d.view_count ++ [',']
        ++ natStr d.like_count ++ [','] ++ natStr d.comment_count) := by
    rw [csvRow, escQuotes_eq_self hq]
    simp
  have hfree : ∀ a ∈ '"' :: d.title ++ ['"'], a ≠ ',' := by
    intro a ha hcm
    subst hcm
    rcases List.mem_cons.mp ha with ha | ha
    · exact absurd ha.symm (by decide)
    · rcases List.mem_append.mp ha with ha | ha
      · exact hc ha
      · simp at ha
  rw [loadKey, hrow, splitOnComma_append hfree]
  show stripQuotes ('"' :: d.title ++ ['"']) = d.title
  exact stripQuotes_wrap hq

/-- C1 (counterexample) — The round trip fails for a title containing a
comma: `generate_csv` does not quote-escape commas, `load_existing_csv`
splits naively on `","`, so the row written for title `a,b` is stored under
the key `a`, not `a,b`. (Titles containing a double quote fail too: `a"x` is
stored as `a""x`.) -/
theorem csv_roundtrip_counterexample :
    loadKey (csvRow "2025-01-01".toList
      { title := "a,b".toList, upload_date := "20240101".toList, description := [],
        webpage_url := "(No URL)".toList, view_count := 1, like_count := 2,
        comment_count := 3 }) ≠ "a,b".toList := by decide

/-- C1 (amended) — A CSV row written by `generate_csv` round-trips through
`load_existing_csv` — the key under which the row is stored equals the
original title — exactly when the title contains neither a comma nor a
double quote; for titles containing a comma or a double quote the key
differs from the title. -/
theorem csv_roundtrip_safe_titles (download_date : Str) (d : VideoData)
    (hc : ',' ∉ d.title) (hq : '"' ∉ d.title) :
    loadKey (csvRow download_date d) = d.title :=
  loadKey_csvRow hc hq

/-- Witness for the amended C1 at a concrete comma- and quote-free title. -/
theorem csv_roundtrip_safe_titles_witness :
    ',' ∉ "ab".toList ∧ '"' ∉ "ab".toList ∧
      loadKey (csvRow "2025-01-01".toList
        { title := "ab".toList, upload_date := "20240101".toList, description := [],
          webpage_url := "(No URL)".toList, view_count := 10, like_count := 0,
          comment_count := 5 }) = "ab".toList :=
  ⟨by decide, by decide, csv_roundtrip_safe_titles _ _ (by decide) (by decide)⟩

theorem updateLines_spec (title : Str) (dat : VideoData) :
    ∀ rest rs u, updateLines title dat rest = some (rs, u) →
      List.Forall₂ (LineRel title dat) rest rs ∧
        u = rest.any (fun l => matchesTitle l title) := by
  intro rest
  induction rest with
  | nil =>
    intro rs u h
    rw [updateLines] at h
    injection h with h
    injection h with h1 h2
    subst h1
    subst h2
    exact ⟨List.Forall₂.nil, rfl⟩
  | cons line rest ih =>
    intro rs u h
    rw [updateLines] at h
    by_cases hm : matchesTitle line title
    · rw [if_pos hm] at h
      cases hset : setLast3 (splitOnComma line) (natStr dat.view_count)
          (natStr dat.like_count) (natStr dat.comment_count) with
      | none =>
        rw [hset] at h
        exact absurd h (by simp)
      | some parts =>
        rw [hset] at h
        cases hrec : updateLines title dat rest with
        | none =>
          rw [hrec] at h
          exact absurd h (by simp)
        | some pr =>
          rw [hrec] at h
          obtain ⟨rs', u'⟩ := pr
          injection h with h
          injection h with h1 h2
          subst h1
          subst h2
          obtain ⟨hf, _⟩ := ih rs' u' hrec
          refine ⟨List.Forall₂.cons ?_ hf, by simp [hm]⟩
          right
          rw [setLast3] at hset
          by_cases hlen : (splitOnComma line).length < 3
          · rw [if_pos hlen] at hset
            exact absurd hset (by simp)
          · rw [if_neg hlen] at hset
            injection hset with hset
            subst hset
            exact ⟨hm, rfl, Nat.le_of_not_lt hlen⟩
    · rw [if_neg hm] at h
      cases hrec : updateLines title dat rest with
      | none =>
        rw [hrec] at h
        exact absurd h (by simp)
      | some pr =>
        rw [hrec] at h
        obtain ⟨rs', u'⟩ := pr
        injection h with h
        injection h with h1 h2
        subst h1
        subst h2
        obtain ⟨hf, hu⟩ := ih rs' u' hrec
        refine ⟨List.Forall₂.cons (Or.inl ⟨by simpa using hm, rfl⟩) hf, ?_⟩
        simp [hm, hu]

theorem updateLines_no_match (title : Str) (dat : VideoData) :
    ∀ rest, (∀ l ∈ rest, matchesTitle l title = false) →
      updateLines title dat rest = some (rest, false) := by
  intro rest
  induction rest with
  | nil => intro _; rw [updateLines]
  | cons line rest ih =>
    intro h
    rw [updateLines, if_neg (by simp [h line (List.mem_cons_self line rest)]),
      ih fun l hl => h l (List.mem_cons_of_mem line hl)]

/-- C9 — `update_csv_row` modifies only the matched rows' last three
comma-separated fields: for a missing file nothing happens; when no
exception escapes, the header is preserved and the data lines are related
line-by-line to the originals (non-matching lines verbatim, matching lines
with only the final three comma-separated fields replaced); when no line
starts with the quoted title the file is completely unchanged; and whenever
an exception escapes the content is also unchanged. -/
theorem update_csv_row_frame (title : Str) (dat : VideoData) :
    (update_csv_row none title dat = (none, false)) ∧
    (∀ hdr rest out, update_csv_row (some (hdr :: rest)) title dat = (out, false) →
      ∃ rs, out = some (hdr :: rs) ∧ List.Forall₂ (LineRel title dat) rest rs) ∧
    (∀ hdr rest, (∀ l ∈ rest, matchesTitle l title = false) →
      update_csv_row (some (hdr :: rest)) title dat = (some (hdr :: rest), false)) ∧
    (∀ file, (update_csv_row file title dat).2 = true →
      (update_csv_row file title dat).1 = file) := by
  refine ⟨rfl, ?_, ?_, ?_⟩
  · intro hdr rest out h
    rw [update_csv_row] at h
    cases hrec : updateLines title dat rest with
    | none =>
      rw [hrec] at h
      injection h with _ hfalse
      exact absurd hfalse (by simp)
    | some pr =>
      rw [hrec] at h
      obtain ⟨rs, u⟩ := pr
      injection h with hout _
      obtain ⟨hf, hu⟩ := updateLines_spec title dat rest rs u hrec
      by_cases hcu : u = true
      · rw [if_pos hcu] at hout
        exact ⟨rs, hout.symm, hf⟩
      · rw [if_neg hcu] at hout
        refine ⟨rest, hout.symm, ?_⟩
        refine List.forall₂_same.mpr fun l hl => Or.inl ⟨?_, rfl⟩
        rw [Bool.not_eq_true] at hcu
        rw [hcu] at hu
        have := List.any_eq_false.mp hu.symm
        exact Bool.not_eq_true _ |>.mp (this l hl)
  · intro hdr rest h
    rw [update_csv_row, updateLines_no_match title dat rest h]
    simp
  · intro file h
    match file with
    | none => rfl
    | some [] => rfl
    | some (hdr :: rest) =>
      rw [update_csv_row] at h ⊢
      cases hrec : updateLines title dat rest with
      | none => rfl
      | some pr =>
        rw [hrec] at h
        exact absurd h (by simp)

/-- Witness for C9: on a concrete two-line file whose data line does not
start with `"zz"`, updating title `zz` leaves the file unchanged. -/
theorem update_csv_row_frame_witness :
    (∀ l ∈ ["\"ab\",2024-01-01,2025-01-01,\"\",\"u\",1,2,3".toList],
        matchesTitle l "zz".toList = false) ∧
      update_csv_row
        (some [csvHeader, "\"ab\",2024-01-01,2025-01-01,\"\",\"u\",1,2,3".toList])
        "zz".toList
        { title := "zz".toList, upload_date := [], description := [], webpage_url := [],
          view_count := 7, like_count := 8, comment_count := 9 }
        = (some [csvHeader, "\"ab\",2024-01-01,2025-01-01,\"\",\"u\",1,2,3".toList], false) :=
  ⟨by decide,
    (update_csv_row_frame "zz".toList
        { title := "zz".toList, upload_date := [], description := [], webpage_url := [],
          view_count := 7, like_count := 8, comment_count := 9 }).2.2.1
      csvHeader ["\"ab\",2024-01-01,2025-01-01,\"\",\"u\",1,2,3".toList] (by decide)⟩

theorem quote_free_append_inj :
    ∀ {t rt : Str}, '"' ∉ t → '"' ∉ rt →
      ∀ {a b : Str}, t ++ '"' :: a = rt ++ '"' :: b → t = rt := by
  intro t
  induction t with
  | nil =>
    intro rt ht hrt a b h
    cases rt with
    | nil => rfl
    | cons c rt' =>
      rw [List.nil_append, List.cons_append] at h
      injection h with h1 _
      exfalso
      apply hrt
      rw [← h1]
      exact List.mem_cons_self _ _
  | cons c t' ih =>
    intro rt ht hrt a b h
    cases rt with
    | nil =>
      rw [List.nil_append, List.cons_append] at h
      injection h with h1 _
      exfalso
      apply ht
      rw [h1]
      exact List.mem_cons_self _ _
    | cons c2 rt' =>
      rw [List.cons_append, List.cons_append] at h
      injection h with h1 h2
      subst h1
      rw [ih (fun hm => ht (List.mem_cons_of_mem c hm))
        (fun hm => hrt (List.mem_cons_of_mem c hm)) h2]

/-- The quoted-prefix test of `update_csv_row` agrees with exact title
equality on `generate_csv` rows exactly when both titles are quote-free. -/
theorem matchesTitle_csvRow_iff {download_date : Str} {r : VideoData} {t : Str}
    (hq : '"' ∉ r.title) (hqt : '"' ∉ t) :
    matchesTitle (csvRow download_date r) t = true ↔ r.title = t := by
  have hrow : csvRow download_date r
      = ('"' :: r.title ++ ['"']) ++ ',' :: (fmtUploadDate r.upload_date ++ [',']
        ++ download_date ++ [',', '"'] ++ escQuotes r.description ++ ['"', ',', '"']
        ++ r.webpage_url ++ ['"', ','] ++ natStr r.view_count ++ [',']
        ++ natStr r.like_count ++ [','] ++ natStr r.comment_count) := by
    rw [csvRow, escQuotes_eq_self hq]
    simp
  constructor
  · intro h
    rw [matchesTitle, List.isPrefixOf_iff_prefix, hrow] at h
    obtain ⟨s, hs⟩ := h
    simp only [List.cons_append, List.append_assoc, List.singleton_append] at hs
    injection hs with _ hs
    exact (quote_free_append_inj hqt hq hs).symm
  · intro h
    subst h
    rw [matchesTitle, List.isPrefixOf_iff_prefix, hrow]
    exact List.prefix_append _ _

/-- The keys loaded from a `generate_csv` file whose titles are comma- and
quote-free are exactly the titles. -/
theorem load_keys_of_rows (download_date : Str) {rows : List VideoData}
    (hrows : ∀ r ∈ rows, ',' ∉ r.title ∧ '"' ∉ r.title) :
    load_existing_keys (csvHeader :: rows.map (csvRow download_date))
      = rows.map (fun r => r.title) := by
  rw [load_existing_keys, List.drop_one, List.tail_cons]
  induction rows with
  | nil => rfl
  | cons r rs ih =>
    rw [List.map_cons, List.map_cons, List.map_cons,
      loadKey_csvRow (hrows r (List.mem_cons_self r rs)).1
        (hrows r (List.mem_cons_self r rs)).2,
      ih fun a ha => hrows a (List.mem_cons_of_mem r ha)]

/-- C2 (counterexample) — The CSV table is not keyed by exact title string
equality: updating stats for title `a` rewrites the row generated for the
different title `a"x`, because that row's line starts with the quoted
string `"a"` (`"a""x",...`). -/
theorem update_matches_different_title :
    "a".toList ≠ "a\"x".toList ∧
      (update_csv_row
        (some [csvHeader, csvRow "2025-01-01".toList
          { title := "a\"x".toList, upload_date := "20240101".toList, description := [],
            webpage_url := "(No URL)".toList, view_count := 1, like_count := 2,
            comment_count := 3 }])
        "a".toList
        { title := "a".toList, upload_date := [], description := [], webpage_url := [],
          view_count := 99, like_count := 98, comment_count := 97 }).1
      ≠ some [csvHeader, csvRow "2025-01-01".toList
          { title := "a\"x".toList, upload_date := "20240101".toList, description := [],
            webpage_url := "(No URL)".toList, view_count := 1, like_count := 2,
            comment_count := 3 }] :=
  ⟨by decide, by decide⟩

/-- C2 (amended) — Matching is by fragile string prefix/equality checks on
the raw line, not by a parsed title field. Restricted to `generate_csv`
files whose row titles contain neither commas nor double quotes:
`post_process_videos` treats an item as already present exactly when some
row's title equals the item's full title, and `update_csv_row`'s line match
on such a row holds exactly when the row's title equals the given
(quote-free) title. In general a line can match a different title
(counterexample). -/
theorem title_matching_amended (username download_date : Str) (rows : List VideoData)
    (q : VideoData) (ok : Bool)
    (hrows : ∀ r ∈ rows, ',' ∉ r.title ∧ '"' ∉ r.title)
    (hq : '"' ∉ full_title q)
    (hdate : q.upload_date ≠ []) :
    (processItem username (load_existing_keys (csvHeader :: rows.map (csvRow download_date)))
        ok q
        = .updatedExisting (folderName username q) (txtName username q)
      ↔ ∃ r ∈ rows, r.title = full_title q) ∧
    (∀ r ∈ rows,
      (matchesTitle (csvRow download_date r) (full_title q) = true
        ↔ r.title = full_title q)) := by
  have hkeys := load_keys_of_rows download_date hrows
  constructor
  · rw [processItem, if_neg (by simpa [List.isEmpty_iff] using hdate)]
    by_cases hc : (load_existing_keys
        (csvHeader :: rows.map (csvRow download_date))).contains (full_title q) = true
    · rw [if_pos hc]
      constructor
      · intro _
        have hm : full_title q ∈ rows.map (fun r => r.title) := by
          rw [← hkeys]
          simpa using hc
        obtain ⟨r, hr, he⟩ := List.mem_map.mp hm
        exact ⟨r, hr, he⟩
      · intro _
        rfl
    · rw [if_neg hc]
      constructor
      · intro h
        exact absurd h (by simp)
      · rintro ⟨r, hr, he⟩
        exfalso
        apply hc
        have hm : full_title q ∈ rows.map (fun r => r.title) := List.mem_map.mpr ⟨r, hr, he⟩
        rw [← hkeys] at hm
        simpa using hm
  · intro r hr
    exact matchesTitle_csvRow_iff (hrows r hr).2 hq

/-- Witness for the amended C2 on a one-row file with title `ab`. -/
theorem title_matching_amended_witness :
    (processItem "u".toList
        (load_existing_keys (csvHeader ::
          [(⟨"ab".toList, "20240101".toList, [], "(No URL)".toList, 1, 2, 3⟩ : VideoData)].map
            (csvRow "2025-01-01".toList)))
        true ⟨"ab".toList, "20240102".toList, [], [], 4, 5, 6⟩
      = .updatedExisting
          (folderName "u".toList ⟨"ab".toList, "20240102".toList, [], [], 4, 5, 6⟩)
          (txtName "u".toList ⟨"ab".toList, "20240102".toList, [], [], 4, 5, 6⟩)
      ↔ ∃ r ∈ [(⟨"ab".toList, "20240101".toList, [], "(No URL)".toList, 1, 2, 3⟩ : VideoData)],
          r.title = full_title ⟨"ab".toList, "20240102".toList, [], [], 4, 5, 6⟩) ∧
    (∀ r ∈ [(⟨"ab".toList, "20240101".toList, [], "(No URL)".toList, 1, 2, 3⟩ : VideoData)],
      (matchesTitle (csvRow "2025-01-01".toList r)
          (full_title ⟨"ab".toList, "20240102".toList, [], [], 4, 5, 6⟩) = true
        ↔ r.title = full_title ⟨"ab".toList, "20240102".toList, [], [], 4, 5, 6⟩)) :=
  title_matching_amended "u".toList "2025-01-01".toList
    [(⟨"ab".toList, "20240101".toList, [], "(No URL)".toList, 1, 2, 3⟩ : VideoData)]
    ⟨"ab".toList, "20240102".toList, [], [], 4, 5, 6⟩ true
    (by decide) (by decide) (by decide)

/-- C6 (counterexample) — The folder-name component is not exactly the
sanitized title truncated to 50 characters: for a title of 49 `a`s, a space
and a `b`, the truncation ends in a space and the outer `sanitize` strips
it, so the actual folder name differs from the claimed
`date-user - (sanitized title)[:50]`. -/
theorem folder_name_counterexample :
    folderName "u".toList
        ⟨List.replicate 49 'a' ++ [' ', 'b'], "20240101".toList, [], [], 0, 0, 0⟩
      ≠ reformatDate "20240101".toList ++ '-' :: "u".toList ++ ' ' :: '-' :: ' ' ::
          (sanitize (full_title
            ⟨List.replicate 49 'a' ++ [' ', 'b'], "20240101".toList, [], [], 0, 0, 0⟩)).take 50
    := by decide

/-- C6 (amended) — For every record with a valid non-empty upload date, the
per-video folder name is the upload date reformatted `YYYY-MM-DD`, a hyphen,
the username, the separator `" - "`, and the sanitized title truncated to 50
characters with any whitespace exposed at the cut stripped from its right
end (the code re-applies `sanitize` to the truncation). -/
theorem folder_name_formula (username : Str) (d : VideoData)
    (h : ValidDate8 d.upload_date) :
    folderName username d
      = reformatDate d.upload_date ++ '-' :: username ++ ' ' :: '-' :: ' ' ::
          rstrip ((sanitize (full_title d)).take 50) := by
  rw [folderName, sanitize_take_sanitize]

/-- Witness for the amended C6 at a concrete record. -/
theorem folder_name_formula_witness :
    ValidDate8 ("20240101".toList) ∧
      folderName "u".toList ⟨"t".toList, "20240101".toList, [], [], 0, 0, 0⟩
        = reformatDate "20240101".toList ++ '-' :: "u".toList ++ ' ' :: '-' :: ' ' ::
            rstrip ((sanitize (full_title
              ⟨"t".toList, "20240101".toList, [], [], 0, 0, 0⟩)).take 50) :=
  ⟨by decide, folder_name_formula "u".toList _ (by decide)⟩

/-- C7 — Failures are handled best-effort without propagation:
`is_yt_dlp_installed` returns `False` for every failing version check
instead of raising; the `post_process_videos` loop processes every item —
an item whose TXT sidecar write fails (third conjunct: a new item with
`txtOk = false` ends as `createdNew _ _ false`, the caught-and-warned
outcome) does not stop the loop, which continues with the remaining
items. -/
theorem best_effort_error_handling :
    (∀ e : Str, is_yt_dlp_installed (Except.error e) = false) ∧
    (∀ (username : Str) (keys : List Str) (pre post : List (VideoData × Bool))
        (x : VideoData × Bool),
      post_process_videos username keys (pre ++ x :: post)
        = post_process_videos username keys pre
          ++ processItem username keys x.2 x.1 :: post_process_videos username keys post) ∧
    (∀ (username : Str) (keys : List Str) (d : VideoData),
      d.upload_date ≠ [] → full_title d ∉ keys →
        processItem username keys false d
          = .createdNew (folderName username d) (txtName username d) false) := by
  refine ⟨fun _ => rfl, ?_, ?_⟩
  · intro username keys pre post x
    rw [post_process_videos, post_process_videos, post_process_videos]
    rw [List.map_append, List.map_cons]
  · intro username keys d h1 h2
    rw [processItem, if_neg (by simpa [List.isEmpty_iff] using h1),
      if_neg (by simpa using h2)]

/-- Witness for C7: a new item whose TXT write fails is recorded as created
with a warning, on concrete data. -/
theorem best_effort_error_handling_witness :
    ("20240101".toList ≠ ([] : Str)) ∧
      full_title (⟨"t".toList, "20240101".toList, [], [], 0, 0, 0⟩ : VideoData)
        ∉ ([] : List Str) ∧
      processItem "u".toList [] false ⟨"t".toList, "20240101".toList, [], [], 0, 0, 0⟩
        = .createdNew
            (folderName "u".toList ⟨"t".toList, "20240101".toList, [], [], 0, 0, 0⟩)
            (txtName "u".toList ⟨"t".toList, "20240101".toList, [], [], 0, 0, 0⟩) false :=
  ⟨by decide, by decide,
    best_effort_error_handling.2.2 "u".toList []
      ⟨"t".toList, "20240101".toList, [], [], 0, 0, 0⟩ (by decide) (by decide)⟩

/-- C10 — A record whose `upload_date` is absent or empty is skipped
entirely by `post_process_videos` (the `continue` fires before any
filesystem effect): no folder is created, no TXT write is attempted, no
files are moved and no CSV update happens for it. -/
theorem dateless_item_skipped (username : Str) (keys : List Str) (ok : Bool)
    (d : VideoData) (h : d.upload_date = []) :
    processItem username keys ok d = .skippedNoDate ∧
      foldersMade (processItem username keys ok d) = [] ∧
      txtWritesAttempted (processItem username keys ok d) = [] ∧
      movesFiles (processItem username keys ok d) = false ∧
      touchesCsv (processItem username keys ok d) = false := by
  have hp : processItem username keys ok d = .skippedNoDate := by
    rw [processItem, if_pos (by simp [h])]
  exact ⟨hp, by rw [hp]; rfl, by rw [hp]; rfl, by rw [hp]; rfl, by rw [hp]; rfl⟩

/-- Witness for C10 at a concrete dateless record. -/
theorem dateless_item_skipped_witness :
    processItem "u".toList [] true ⟨"t".toList, [], [], [], 0, 0, 0⟩ = .skippedNoDate ∧
      foldersMade (processItem "u".toList [] true ⟨"t".toList, [], [], [], 0, 0, 0⟩) = [] ∧
      txtWritesAttempted (processItem "u".toList [] true ⟨"t".toList, [], [], [], 0, 0, 0⟩)
        = [] ∧
      movesFiles (processItem "u".toList [] true ⟨"t".toList, [], [], [], 0, 0, 0⟩) = false ∧
      touchesCsv (processItem "u".toList [] true ⟨"t".toList, [], [], [], 0, 0, 0⟩) = false :=
  dateless_item_skipped "u".toList [] true ⟨"t".toList, [], [], [], 0, 0, 0⟩ rfl

end TiktokExport
